import Mathlib

/-!
# GTID checkpoint store of the MySQL applier

A shallow embedding of `drivers/mysql/mysql/applier_gtid_executed.go`:
`parseInterval`, `SelectAllGtidExecuted`, `cleanGtidExecuted`,
`migrateGtidExecutedV2toV3`, `migrateGtidExecutedV3toV4` and
`createTableGtidExecutedV4`.

Conventions of the embedding.

* A Go `string` is a `List Char`. Every byte the code inspects (`-`, `:`, `,`,
  `+`, the digits) is ASCII, and every byte of a multi-byte UTF-8 sequence is
  `≥ 0x80`, which `strconv` rejects exactly as it rejects the code point here.
* `int64` values are `Int`; the additions of the source go through `add64`,
  which wraps modulo `2^64`.
* A Go `error` is `Option GoError`, `none` being `nil`.
* Database handles are replaced by an explicit `World`: the statements issued so
  far and the rows of the V4 table, with the failures of the driver given by a
  function of the call number.
-/

namespace Dtle

/-! ## Errors, strings and machine integers -/

/-- The two failure kinds of `strconv.NumError`: `ErrSyntax` and `ErrRange`. -/
inductive NumError where
  | invalidDigits
  | outOfRange
deriving DecidableEq, Repr

/-- Go `error` values that occur in the file: a `*strconv.NumError`, an error
built by `fmt.Errorf`, or an error returned by the database driver. -/
inductive GoError where
  | num (e : NumError)
  | errorf (text : String)
  | driver (code : Nat)
deriving DecidableEq, Repr

/-- Reduction of an integer to the `int64` value with the same residue modulo
`2^64`. -/
def wrap64 (x : Int) : Int := (x + 2 ^ 63) % 2 ^ 64 - 2 ^ 63

/-- Go `a + b` on `int64`. -/
def add64 (a b : Int) : Int := wrap64 (a + b)

/-- Go `strings.Split(s, sep)` for a one-byte separator: the pieces between the
occurrences of `sep`, one more than there are occurrences. -/
def Split (sep : Char) : List Char → List (List Char)
  | [] => [[]]
  | c :: cs =>
    if c = sep then [] :: Split sep cs
    else
      match Split sep cs with
      | [] => [[c]]
      | p :: ps => (c :: p) :: ps

/-- Go `strings.ContainsAny(s, chars)`. -/
def ContainsAny (s chars : List Char) : Bool :=
  s.any (fun c => chars.contains c)

/-! ## `strconv.ParseInt(s, 10, 64)` -/

/-- The largest `uint64`. -/
def maxUint64 : Nat := 2 ^ 64 - 1

/-- The function `lower(c)` of `strconv`: `c | ('x' - 'X')`. -/
def lower (c : Nat) : Nat := c ||| 0x20

/-- The digit loop of `strconv.ParseUint(s, 10, 64)` from the accumulator `n`:
the value and the error, the value being `0` on a bad byte and `maxUint64` on
overflow, as in the library. -/
def parseUintLoop : List Char → Nat → Nat × Option NumError
  | [], n => (n, none)
  | c :: cs, n =>
    let b := c.toNat
    if 48 ≤ b ∧ b ≤ 57 then
      let d := b - 48
      -- cutoff = maxUint64/10 + 1
      if n ≥ maxUint64 / 10 + 1 then (maxUint64, some NumError.outOfRange)
      else
        let n1 := n * 10 + d
        if n1 > maxUint64 then (maxUint64, some NumError.outOfRange)
        else parseUintLoop cs n1
    else if 97 ≤ lower b ∧ lower b ≤ 122 then
      -- a letter is the digit lower(c) - 'a' + 10, never below the base 10
      (0, some NumError.invalidDigits)
    else (0, some NumError.invalidDigits)

/-- Go `strconv.ParseUint(s, 10, 64)` of the standard library: the empty text
is refused, any other text goes through the digit loop. -/
def ParseUint (s : List Char) : Nat × Option NumError :=
  match s with
  | [] => (0, some NumError.invalidDigits)
  | _ => parseUintLoop s 0

/-- Go `strconv.ParseInt(s, 10, 64)` of the standard library: the value and the
error. One leading sign is taken off and the rest goes to `ParseUint`. On a bad
byte the value is `0`; out of range it is the nearest bound of `int64`. -/
def ParseInt (s : List Char) : Int × Option NumError :=
  match s with
  | [] => (0, some NumError.invalidDigits)
  | c :: cs =>
    let neg : Bool := c = '-'
    let body := if c = '+' ∨ c = '-' then cs else s
    match ParseUint body with
    | (_, some NumError.invalidDigits) => (0, some NumError.invalidDigits)
    | (un, _) =>
      -- cutoff = 1 << 63
      if neg = false ∧ un ≥ 2 ^ 63 then (2 ^ 63 - 1, some NumError.outOfRange)
      else if neg = true ∧ un > 2 ^ 63 then (-(2 ^ 63), some NumError.outOfRange)
      else (if neg then -(un : Int) else (un : Int), none)

/-! ## Intervals and `parseInterval` -/

/-- The type `mysql.Interval`: the half-open range `[Start, Stop)`. -/
structure Interval where
  Start : Int
  Stop : Int
deriving DecidableEq, Repr

/-- The function `parseInterval`. Both results are returned, as in Go; the
interval is meaningful when the error is `none`. In the two-sided case the
error of the first `ParseInt` is overwritten by that of the second. -/
def parseInterval (str : List Char) : Interval × Option GoError :=
  let p := Split '-' str
  let r : Interval × Option GoError :=
    match p with
    | [p0] =>
      let (start, err) := ParseInt p0
      (⟨start, add64 start 1⟩, err.map GoError.num)
    | [p0, p1] =>
      let (start, _) := ParseInt p0
      let (stop, err) := ParseInt p1
      (⟨start, add64 stop 1⟩, err.map GoError.num)
    | _ => (⟨0, 0⟩, some (GoError.errorf "invalid interval format, must n[-n]"))
  match r.2 with
  | some e => (r.1, some e)
  | none =>
    if r.1.Stop ≤ r.1.Start then
      (r.1, some (GoError.errorf
        "invalid interval format, must n[-n] and the end must >= start"))
    else (r.1, none)

/-! ## `IntervalSlice.Normalize` -/

/-- The method `IntervalSlice.Less`: order by `Start`, then by `Stop`. -/
def Less (a b : Interval) : Bool :=
  if a.Start < b.Start then true
  else if a.Start > b.Start then false
  else decide (a.Stop < b.Stop)

/-- The relation "not after": `b` is not `Less` than `a`. -/
def NotAfter (a b : Interval) : Prop := Less b a = false

instance : DecidableRel NotAfter :=
  fun a b => inferInstanceAs (Decidable (Less b a = false))

/-- Modelled from the spec: `IntervalSlice.Sort` of the imported go-mysql package
is not under src/; it is `sort.Sort` on `Less`, "sorts by start ascending". The
order `Less` is total on the pairs `(Start, Stop)`, so the sorted slice does not
depend on the sorting algorithm (see `SortIntervals_unique`). -/
def SortIntervals (s : List Interval) : List Interval := s.insertionSort NotAfter

/-- The loop of `Normalize` over the sorted slice: `last` is `n[len(n)-1]`, the
intervals already emitted are `n[:len(n)-1]`. An interval that starts after
`last.Stop` is appended; any other is merged into `last`. -/
def mergeSorted (last : Interval) : List Interval → List Interval
  | [] => [last]
  | x :: xs =>
    if x.Start > last.Stop then last :: mergeSorted x xs
    else mergeSorted ⟨last.Start, if last.Stop > x.Stop then last.Stop else x.Stop⟩ xs

/-- Modelled from the spec: `IntervalSlice.Normalize` of the imported go-mysql
package is not under src/; "sorts by start ascending, merges overlapping ranges,
returns the minimal ascending non-overlapping cover of the same union of
integers", with `a.stop < b.start` for adjacent results. -/
def Normalize (s : List Interval) : List Interval :=
  match SortIntervals s with
  | [] => []
  | x :: xs => mergeSorted x xs

/-- The integer `x` lies in one of the intervals of `l`. -/
def Covers (l : List Interval) (x : Int) : Prop :=
  ∃ i ∈ l, i.Start ≤ x ∧ x < i.Stop

/-! ## `SelectAllGtidExecuted` -/

/-- A `uuid.UUID`, sixteen bytes read as one number. -/
abbrev UUID := Nat

/-- The type `base.GtidExecutedItem`, with the two fields the file uses; `NRow`
is a Go `int`, taken as 64 bits wide. -/
structure GtidExecutedItem where
  NRow : Int
  Intervals : List Interval
deriving DecidableEq, Repr

/-- The type `base.GtidSet`, a Go map from source id to item. -/
abbrev GtidSet := UUID → Option GtidExecutedItem

/-- The map assignment `gtidSet[sid] = item`. -/
def GtidSet.set (m : GtidSet) (sid : UUID) (item : GtidExecutedItem) : GtidSet :=
  fun k => if k = sid then some item else m k

/-- One row of the result of the select as `rows.Scan` delivers it:
`source_uuid`, `gtid`, `gtid_set`. -/
structure GtidRow where
  sid : UUID
  gno : Int
  gnoSet : List Char
deriving DecidableEq, Repr

/-- The inner loop of `SelectAllGtidExecuted` over the pieces of `gtid_set`:
every piece is parsed and appended; the first failure ends the read. -/
def appendIntervals (acc : List Interval) : List (List Char) → Except GoError (List Interval)
  | [] => Except.ok acc
  | t :: ts =>
    match parseInterval t with
    | (_, some e) => Except.error e
    | (i, none) => appendIntervals (acc ++ [i]) ts

/-- The row loop of `SelectAllGtidExecuted`. Each element of the list is the
outcome of `rows.Scan` on one row. -/
def scanRows (gtidSet : GtidSet) : List (Except GoError GtidRow) → Except GoError GtidSet
  | [] => Except.ok gtidSet
  | Except.error e :: _ => Except.error e
  | Except.ok row :: rest =>
    let item : GtidExecutedItem := (gtidSet row.sid).getD ⟨0, []⟩
    let nRow := add64 item.NRow 1
    if row.gno = 0 then
      match appendIntervals item.Intervals (Split ':' row.gnoSet) with
      | Except.error e => Except.error e
      | Except.ok ivs => scanRows (gtidSet.set row.sid ⟨nRow, ivs⟩) rest
    else
      scanRows (gtidSet.set row.sid
        ⟨nRow, item.Intervals ++ [⟨row.gno, add64 row.gno 1⟩]⟩) rest

/-- The function `SelectAllGtidExecuted`. The argument is the outcome of
`db.Query` for the job: an error, or the rows in the order the cursor yields
them, each with the outcome of its `Scan`. The result is the pair the Go
function returns. -/
def SelectAllGtidExecuted (query : Except GoError (List (Except GoError GtidRow))) :
    Option GtidSet × Option GoError :=
  match query with
  | Except.error e => (none, some e)
  | Except.ok rows =>
    match scanRows (fun _ => none) rows with
    | Except.error e => (none, some e)
    | Except.ok gtidSet =>
      (some (fun sid => (gtidSet sid).map (fun item => ⟨item.NRow, Normalize item.Intervals⟩)),
        none)

/-- The rows of a successful query on which every `Scan` succeeds. -/
def scanned (rows : List GtidRow) : Except GoError (List (Except GoError GtidRow)) :=
  Except.ok (rows.map Except.ok)

/-! ## The database as seen by the applier -/

/-- The constants of package `g` that the file uses (the package is not under
src/, so their values are parameters). -/
structure G where
  GtidExecutedTempTablePrefix : String
  GtidExecutedTablePrefix : String
  GtidExecutedTempTable2To3 : String
  GtidExecutedTableV2 : String
  GtidExecutedTableV3 : String
  GtidExecutedTableV4 : String

/-- The handle a statement is sent on: the pool `a.db`, the transaction `tx`
opened on it (also through a statement prepared on `tx`), or the applier
connection `a.dbs[0]`. -/
inductive Handle where
  | pool
  | tx
  | applier
deriving DecidableEq, Repr

/-- A row of the V4 table: `job_name`, `source_uuid`, `gtid`, `gtid_set`
(`none` is SQL `NULL`). -/
structure V4Row where
  job : String
  sid : UUID
  gtid : Int
  gtidSet : Option (List Char)
deriving DecidableEq, Repr

/-- A row of the V3 table as the migration scans it; `job` is the text that
`job.String()` prints. -/
structure LegacyRow where
  job : String
  sid : UUID
  interval : List Char
deriving DecidableEq, Repr

/-- The database calls made by the file. -/
inductive Stmt where
  | showTables (like : String)
  | renameTable (src dst : String)
  | modifyColumn (table : String)
  | createDatabase
  | createTableV4
  | selectV3
  | beginTx
  | prepareInsert
  | insertV4 (via : Handle) (row : V4Row)
  | deleteExecutedGtid (sid : UUID)
  | commit
  | rollback
  | dropTable (table : String)
deriving DecidableEq, Repr

/-- The calls that change the schema or the data: create, alter, insert, delete
and drop statements. -/
def Stmt.changes : Stmt → Bool
  | Stmt.renameTable _ _ => true
  | Stmt.modifyColumn _ => true
  | Stmt.createDatabase => true
  | Stmt.createTableV4 => true
  | Stmt.insertV4 _ _ => true
  | Stmt.deleteExecutedGtid _ => true
  | Stmt.dropTable _ => true
  | _ => false

/-- The state the calls act on: the calls issued so far (oldest first), the
committed rows of the V4 table, and the rows written on the open transaction of
the pool. The effect of the statements sent on the applier connection on the
rows is not modelled (the text of its prepared delete is not in the file). -/
structure World where
  calls : List Stmt
  v4 : List V4Row
  pending : List V4Row
deriving DecidableEq, Repr

/-- The effect of a successful call on the rows: an insert on the pool is
committed at once, an insert on the transaction waits for the commit, a rollback
drops what waits. -/
def World.effect (w : World) : Stmt → World
  | Stmt.insertV4 Handle.pool row => { w with v4 := w.v4 ++ [row] }
  | Stmt.insertV4 Handle.tx row => { w with pending := w.pending ++ [row] }
  | Stmt.commit => { w with v4 := w.v4 ++ w.pending, pending := [] }
  | Stmt.rollback => { w with pending := [] }
  | _ => w

/-- One database call. `fails k` is the error of the call number `k` (counted
from `0` over all calls), `none` when it succeeds; a failed call has no effect
on the rows. -/
def World.exec (fails : Nat → Option GoError) (w : World) (s : Stmt) :
    Option GoError × World :=
  match fails w.calls.length with
  | some e => (some e, { w with calls := w.calls ++ [s] })
  | none => (none, World.effect { w with calls := w.calls ++ [s] } s)

/-- What the reading calls return when they succeed, taken as parameters: the
two table listings of `sql.QueryResultData` (the name in the first column of
each row) and the rows of the V3 table, each with the outcome of its `Scan`. -/
structure Catalog where
  tempTables : List String
  tables : List String
  legacy : List (Except GoError LegacyRow)

/-- The database with no call issued and an empty V4 table. -/
def World.empty : World := ⟨[], [], []⟩

/-- The driver on which every call succeeds. -/
def noFailure : Nat → Option GoError := fun _ => none

/-! ## `cleanGtidExecuted` -/

/-- The method `Applier.cleanGtidExecuted`. `waitForAllCommitted` is the value
returned by `a.mtsManager.WaitForAllCommitted()` and `subject` is `a.subject`.
The result type of the Go function is unnamed: the deferred function assigns the
error of `tx.Commit()` to the local `err` after the returned value is fixed. -/
def cleanGtidExecuted (waitForAllCommitted : Bool) (fails : Nat → Option GoError)
    (subject : String) (sid : UUID) (intervalStr : List Char) (w : World) :
    Option GoError × World :=
  if waitForAllCommitted = false then (none, w) -- shutdown
  else
    match w.exec fails Stmt.beginTx with
    | (some e, w) => (some e, w)
    | (none, w) =>
      -- the body after the `defer`: the value given to `return`, equal to `err`
      let body : Option GoError × World :=
        match w.exec fails (Stmt.deleteExecutedGtid sid) with
        | (some e, w) => (some e, w)
        | (none, w) =>
          match w.exec fails
              (Stmt.insertV4 Handle.applier ⟨subject, sid, 0, some intervalStr⟩) with
          | (some e, w) => (some e, w)
          | (none, w) => (none, w)
      -- the deferred function
      match body with
      | (some e, w) => (some e, (w.exec fails Stmt.rollback).2)
      | (none, w) => (none, (w.exec fails Stmt.commit).2)

/-! ## The migrations -/

/-- The method `Applier.migrateGtidExecutedV2toV3`: three schema statements, the
first failure is returned. -/
def migrateGtidExecutedV2toV3 (g : G) (fails : Nat → Option GoError) (w : World) :
    Option GoError × World :=
  match w.exec fails (Stmt.renameTable g.GtidExecutedTableV2 g.GtidExecutedTempTable2To3) with
  | (some e, w) => (some e, w)
  | (none, w) =>
    match w.exec fails (Stmt.modifyColumn g.GtidExecutedTempTable2To3) with
    | (some e, w) => (some e, w)
    | (none, w) =>
      match w.exec fails
          (Stmt.renameTable g.GtidExecutedTempTable2To3 g.GtidExecutedTableV3) with
      | (some e, w) => (some e, w)
      | (none, w) => (none, w)

/-- The row loop of `migrateGtidExecutedV3toV4`. A text with one of `,`, `-`,
`:` is inserted by `a.db.Exec`, on the pool; any other text is parsed and
inserted by the statement prepared on `tx`. -/
def migrateRows (fails : Nat → Option GoError) :
    World → List (Except GoError LegacyRow) → Option GoError × World
  | w, [] => (none, w)
  | w, Except.error e :: _ => (some e, w)
  | w, Except.ok row :: rest =>
    if ContainsAny row.interval [',', '-', ':'] then
      match w.exec fails (Stmt.insertV4 Handle.pool ⟨row.job, row.sid, 0, some row.interval⟩) with
      | (some e, w) => (some e, w)
      | (none, w) => migrateRows fails w rest
    else
      match ParseInt row.interval with
      | (_, some e) => (some (GoError.num e), w)
      | (gno, none) =>
        match w.exec fails (Stmt.insertV4 Handle.tx ⟨row.job, row.sid, gno, none⟩) with
        | (some e, w) => (some e, w)
        | (none, w) => migrateRows fails w rest

/-- The method `Applier.migrateGtidExecutedV3toV4`. The result is named `err`,
so the deferred function sees every returned error and rolls `tx` back. -/
def migrateGtidExecutedV3toV4 (g : G) (fails : Nat → Option GoError)
    (legacy : List (Except GoError LegacyRow)) (w : World) : Option GoError × World :=
  match w.exec fails Stmt.createTableV4 with
  | (some e, w) => (some e, w)
  | (none, w) =>
    match w.exec fails Stmt.selectV3 with
    | (some e, w) => (some e, w)
    | (none, w) =>
      match w.exec fails Stmt.beginTx with
      | (some e, w) => (some e, w)
      | (none, w) =>
        -- the body after the `defer`
        let body : Option GoError × World :=
          match w.exec fails Stmt.prepareInsert with
          | (some e, w) => (some e, w)
          | (none, w) =>
            match migrateRows fails w legacy with
            | (some e, w) => (some e, w)
            | (none, w) =>
              match w.exec fails Stmt.commit with
              | (some e, w) => (some e, w)
              | (none, w) =>
                match w.exec fails (Stmt.dropTable g.GtidExecutedTableV3) with
                | (some e, w) => (some e, w)
                | (none, w) => (none, w)
        -- the deferred function: `_ = tx.Rollback()` when `err != nil`
        match body with
        | (some e, w) => (some e, (w.exec fails Stmt.rollback).2)
        | (none, w) => (none, w)

/-! ## `createTableGtidExecutedV4` -/

/-- The method `Applier.createTableGtidExecutedV4`. `sql.QueryResultData` is one
reading call; its rows come from the catalog. -/
def createTableGtidExecutedV4 (g : G) (fails : Nat → Option GoError) (cat : Catalog)
    (w : World) : Option GoError × World :=
  match w.exec fails (Stmt.showTables g.GtidExecutedTempTablePrefix) with
  | (err, w) =>
    if err = none ∧ cat.tempTables.length > 0 then
      (some (GoError.errorf "GtidExecutedTempTable exists. require manual intervention"), w)
    else
      match w.exec fails (Stmt.showTables g.GtidExecutedTablePrefix) with
      | (some e, w) => (some e, w)
      | (none, w) =>
        if cat.tables.length > 1 then
          (some (GoError.errorf
            "multiple GtidExecutedTable exists, while at most one is allowed. require manual intervention"), w)
        else
          match cat.tables with
          | [name] =>
            if name = g.GtidExecutedTableV2 then
              match migrateGtidExecutedV2toV3 g fails w with
              | (some e, w) => (some e, w)
              | (none, w) =>
                match migrateGtidExecutedV3toV4 g fails cat.legacy w with
                | (some e, w) => (some e, w)
                | (none, w) => (none, w)
            else if name = g.GtidExecutedTableV3 then
              match migrateGtidExecutedV3toV4 g fails cat.legacy w with
              | (some e, w) => (some e, w)
              | (none, w) => (none, w)
            else if name = g.GtidExecutedTableV4 then (none, w)
            else
              (some (GoError.errorf
                "newer GtidExecutedTable exists, which is unrecognized by this verion. require manual intervention"), w)
          | _ =>
            match w.exec fails Stmt.createDatabase with
            | (some e, w) => (some e, w)
            | (none, w) =>
              match w.exec fails Stmt.createTableV4 with
              | (some e, w) => (some e, w)
              | (none, w) => (none, w)

/-- The outcome of `rows.Scan(&sidUUID, &gno, &gnoSet)` on a row of the V4
table: `database/sql` refuses to convert `NULL` to a `string`. -/
def scanV4Row (r : V4Row) : Except GoError GtidRow :=
  match r.gtidSet with
  | some text => Except.ok ⟨r.sid, r.gtid, text⟩
  | none => Except.error (GoError.errorf "converting NULL to string is unsupported")

/-- The decimal text of a natural number, as `Nat.repr` prints it. -/
def decimal (n : Nat) : List Char := Nat.toDigits 10 n

/-- The run from `w` to `w1` issued only reading calls and left the rows as
they were: no create, alter, insert, delete or drop statement. -/
def NoChange (w w1 : World) : Prop :=
  (∃ issued : List Stmt, w1.calls = w.calls ++ issued ∧ ∀ s ∈ issued, s.changes = false) ∧
    w1.v4 = w.v4 ∧ w1.pending = w.pending

/-! ## Notions used in the statements -/

/-- A character that is a decimal digit. -/
def IsDigit (c : Char) : Prop := 48 ≤ c.toNat ∧ c.toNat ≤ 57

/-- The order of the results of `Normalize`: starts ascend and each interval
stops before the next one starts. -/
def Apart (a b : Interval) : Prop := a.Start ≤ b.Start ∧ a.Stop < b.Start

/-- The intervals one row stands for: `[gno, gno+1)` (the `int64` sum) for a row
with `gno ≠ 0`, the `parseInterval` of every `:`-separated piece of the text for
a row with `gno = 0`. -/
def rowIntervals (r : GtidRow) : List Interval :=
  if r.gno = 0 then (Split ':' r.gnoSet).map (fun t => (parseInterval t).1)
  else [⟨r.gno, add64 r.gno 1⟩]

/-- The rows of source `sid`, in row order. -/
def rowsOf (sid : UUID) (rows : List GtidRow) : List GtidRow :=
  rows.filter (fun r => decide (r.sid = sid))

/-- A row on which every piece parses. -/
def Parses (r : GtidRow) : Prop :=
  r.gno = 0 → ∀ t ∈ Split ':' r.gnoSet, (parseInterval t).2 = none

/-- The item of one source after its rows, from the item `x` before them. -/
def foldItem (x : Option GtidExecutedItem) : List GtidRow → Option GtidExecutedItem
  | [] => x
  | r :: rs =>
    foldItem (some ⟨add64 (x.getD ⟨0, []⟩).NRow 1, (x.getD ⟨0, []⟩).Intervals ++ rowIntervals r⟩) rs

/-- The rows of the C6 example: a point row 5 and the text "1-3:10" of source 7. -/
def sampleRows : List GtidRow := [⟨7, 5, []⟩, ⟨7, 0, "1-3:10".toList⟩]

/-- Sample values of the constants of package `g`. -/
def sampleNames : G :=
  ⟨"gtid_executed_temp_", "gtid_executed_", "gtid_executed_temp_v2_v3", "gtid_executed_v2",
    "gtid_executed_v3", "gtid_executed_v4"⟩

/-- The multi-range text of the migration fixture. -/
def fixtureText : List Char := "1-3,5,10-12".toList

/-! ## Machine integers, decimal text and `ParseInt` -/

theorem wrap64_of_range (x : Int) (h0 : -(2 ^ 63) ≤ x) (h1 : x < 2 ^ 63) : wrap64 x = x := by
  unfold wrap64
  norm_num at h0 h1 ⊢
  omega

theorem wrap64_wrap64_add (a b : Int) : wrap64 (wrap64 a + b) = wrap64 (a + b) := by
  unfold wrap64
  norm_num
  omega

theorem toDigitsCore_eq (n : Nat) : ∀ (fuel : Nat) (ds : List Char), n < fuel →
    Nat.toDigitsCore 10 fuel n ds = Nat.toDigits 10 n ++ ds := by
  induction n using Nat.strong_induction_on with
  | _ n ih =>
    intro fuel ds hf
    obtain ⟨f, rfl⟩ : ∃ f, fuel = f + 1 := ⟨fuel - 1, by omega⟩
    unfold Nat.toDigits
    simp only [Nat.toDigitsCore]
    by_cases h : n / 10 = 0
    · simp [h]
    · have hlt : n / 10 < n := Nat.div_lt_self (by omega) (by decide)
      simp only [h, if_false]
      rw [ih (n / 10) hlt f _ (by omega), ih (n / 10) hlt n _ hlt]
      simp

theorem decimal_of_lt (n : Nat) (h : n < 10) : decimal n = [Nat.digitChar n] := by
  unfold decimal Nat.toDigits
  simp only [Nat.toDigitsCore]
  have : n / 10 = 0 := by omega
  have h2 : n % 10 = n := by omega
  simp [this, h2]

theorem decimal_of_ge (n : Nat) (h : 10 ≤ n) :
    decimal n = decimal (n / 10) ++ [Nat.digitChar (n % 10)] := by
  have hlt : n / 10 < n := Nat.div_lt_self (by omega) (by decide)
  have h0 : ¬ n / 10 = 0 := by omega
  unfold decimal
  conv_lhs => unfold Nat.toDigits
  simp only [Nat.toDigitsCore, h0, if_false]
  exact toDigitsCore_eq (n / 10) n _ hlt

theorem digitChar_toNat (d : Nat) (h : d < 10) : (Nat.digitChar d).toNat = 48 + d := by
  interval_cases d <;> rfl

theorem decimal_digits (n : Nat) : ∀ c ∈ decimal n, IsDigit c := by
  induction n using Nat.strong_induction_on with
  | _ n ih =>
    intro c hc
    by_cases h : n < 10
    · rw [decimal_of_lt n h] at hc
      simp at hc
      subst hc
      unfold IsDigit
      rw [digitChar_toNat n h]
      omega
    · rw [decimal_of_ge n (by omega)] at hc
      simp at hc
      rcases hc with hc | hc
      · exact ih (n / 10) (Nat.div_lt_self (by omega) (by decide)) c hc
      · subst hc
        unfold IsDigit
        rw [digitChar_toNat _ (Nat.mod_lt _ (by decide))]
        omega

theorem decimal_ne_nil (n : Nat) : decimal n ≠ [] := by
  by_cases h : n < 10
  · rw [decimal_of_lt n h]; simp
  · rw [decimal_of_ge n (by omega)]; simp

theorem decimal_not_mem (n : Nat) (c : Char) (hc : ¬ IsDigit c) : c ∉ decimal n :=
  fun h => hc (decimal_digits n c h)

theorem ContainsAny_decimal (n : Nat) : ContainsAny (decimal n) [',', '-', ':'] = false := by
  unfold ContainsAny
  rw [List.any_eq_false]
  intro c hc
  have hd := decimal_digits n c hc
  unfold IsDigit at hd
  have h1 : c ≠ ',' := by intro h; subst h; revert hd; decide
  have h2 : c ≠ '-' := by intro h; subst h; revert hd; decide
  have h3 : c ≠ ':' := by intro h; subst h; revert hd; decide
  simp only [List.contains_cons, List.contains_nil, Bool.or_false, Bool.or_eq_true, beq_iff_eq,
    not_or]
  exact ⟨h1, h2, h3⟩

theorem parseUintLoop_append (xs ys : List Char) : ∀ n m : Nat,
    parseUintLoop xs n = (m, none) → parseUintLoop (xs ++ ys) n = parseUintLoop ys m := by
  induction xs with
  | nil =>
    intro n m h
    simp [parseUintLoop] at h
    subst h
    rfl
  | cons c cs ih =>
    intro n m h
    simp only [parseUintLoop, List.cons_append] at h ⊢
    split_ifs at h ⊢ with h1 h2 h3 h4
    · simp at h
    · simp at h
    · exact ih _ _ h
    · simp at h
    · simp at h

theorem parseUintLoop_digit (d n : Nat) (hd : d < 10) (hn : n * 10 + d ≤ maxUint64) :
    parseUintLoop [Nat.digitChar d] n = (n * 10 + d, none) := by
  have hmax : maxUint64 = 18446744073709551615 := by unfold maxUint64; norm_num
  rw [hmax] at hn
  simp only [parseUintLoop, digitChar_toNat d hd, hmax]
  have h1 : 48 ≤ 48 + d ∧ 48 + d ≤ 57 := by omega
  have h2 : ¬ (n ≥ 18446744073709551615 / 10 + 1) := by omega
  have h3 : ¬ (n * 10 + (48 + d - 48) > 18446744073709551615) := by omega
  rw [if_pos h1, if_neg h2, if_neg h3]
  congr 1
  omega

theorem parseUintLoop_decimal (m : Nat) (hm : m ≤ maxUint64) :
    parseUintLoop (decimal m) 0 = (m, none) := by
  induction m using Nat.strong_induction_on with
  | _ m ih =>
    by_cases h : m < 10
    · rw [decimal_of_lt m h, parseUintLoop_digit m 0 h (by omega)]
      simp
    · rw [decimal_of_ge m (by omega)]
      have hlt : m / 10 < m := Nat.div_lt_self (by omega) (by decide)
      rw [parseUintLoop_append _ _ 0 (m / 10) (ih (m / 10) hlt (by omega)),
        parseUintLoop_digit (m % 10) (m / 10) (Nat.mod_lt m (by decide)) (by omega)]
      congr 1
      omega

theorem ParseInt_decimal (m : Nat) (hm : m < 2 ^ 63) : ParseInt (decimal m) = ((m : Int), none) := by
  have hne := decimal_ne_nil m
  have hloop := parseUintLoop_decimal m (by unfold maxUint64; omega)
  cases hd : decimal m with
  | nil => exact absurd hd hne
  | cons c cs =>
    have hc : IsDigit c := decimal_digits m c (by rw [hd]; simp)
    have hplus : c ≠ '+' := by
      intro h; subst h; unfold IsDigit at hc; revert hc; decide
    have hminus : c ≠ '-' := by
      intro h; subst h; unfold IsDigit at hc; revert hc; decide
    rw [hd] at hloop
    have hm2 : ¬ (m ≥ 2 ^ 63) := by omega
    simp [ParseInt, ParseUint, hplus, hminus, hloop]
    omega

theorem Split_of_not_mem (sep : Char) (s : List Char) (h : sep ∉ s) : Split sep s = [s] := by
  induction s with
  | nil => rfl
  | cons c cs ih =>
    simp only [List.mem_cons, not_or] at h
    have hc : ¬ c = sep := fun e => h.1 e.symm
    simp [Split, hc, ih h.2]

theorem Split_append (sep : Char) (a b : List Char) (h : sep ∉ a) :
    Split sep (a ++ sep :: b) = a :: Split sep b := by
  induction a with
  | nil => simp [Split]
  | cons c cs ih =>
    simp only [List.mem_cons, not_or] at h
    have hc : ¬ c = sep := fun e => h.1 e.symm
    simp [Split, hc, ih h.2]

/-! ## `Normalize`: ascending, disjoint, same cover -/

theorem notAfter_iff (a b : Interval) :
    NotAfter a b ↔ a.Start < b.Start ∨ (a.Start = b.Start ∧ a.Stop ≤ b.Stop) := by
  unfold NotAfter Less
  split_ifs with h1 h2
  · simp; omega
  · simp; omega
  · simp; omega

theorem notAfter_total : IsTotal Interval NotAfter :=
  ⟨fun a b => by rw [notAfter_iff, notAfter_iff]; omega⟩

theorem notAfter_trans : IsTrans Interval NotAfter :=
  ⟨fun a b c => by rw [notAfter_iff, notAfter_iff, notAfter_iff]; omega⟩

theorem notAfter_antisymm : IsAntisymm Interval NotAfter :=
  ⟨fun a b h1 h2 => by
    rw [notAfter_iff] at h1 h2
    cases a; cases b
    simp only [Interval.mk.injEq] at *
    omega⟩

theorem SortIntervals_sorted (s : List Interval) : (SortIntervals s).Sorted NotAfter := by
  haveI := notAfter_total
  haveI := notAfter_trans
  exact List.sorted_insertionSort NotAfter s

/-- The sorted slice is determined by its content: every ordering of `s` that is
ascending for `Less` is `SortIntervals s`. -/
theorem SortIntervals_unique (s t : List Interval) (hp : t.Perm s)
    (hs : t.Sorted NotAfter) : t = SortIntervals s := by
  haveI := notAfter_antisymm
  exact List.eq_of_perm_of_sorted (hp.trans (List.perm_insertionSort NotAfter s).symm) hs
    (SortIntervals_sorted s)

theorem mergeSorted_cons (last x : Interval) (xs : List Interval) :
    mergeSorted last (x :: xs) =
      if x.Start > last.Stop then last :: mergeSorted x xs
      else mergeSorted ⟨last.Start, max last.Stop x.Stop⟩ xs := by
  have hmax : (if last.Stop > x.Stop then last.Stop else x.Stop) = max last.Stop x.Stop := by
    split_ifs <;> omega
  simp only [mergeSorted, hmax]

theorem mergeSorted_start (xs : List Interval) : ∀ (last b : Interval),
    b ∈ mergeSorted last xs → b.Start = last.Start ∨ ∃ y ∈ xs, b.Start = y.Start := by
  induction xs with
  | nil =>
    intro last b hb
    simp [mergeSorted] at hb
    left; rw [hb]
  | cons x xs ih =>
    intro last b hb
    rw [mergeSorted_cons] at hb
    by_cases h : x.Start > last.Stop
    · rw [if_pos h] at hb
      rcases List.mem_cons.mp hb with hb | hb
      · left; rw [hb]
      · rcases ih x b hb with h1 | ⟨y, hy, h1⟩
        · right; exact ⟨x, List.mem_cons_self _ _, h1⟩
        · right; exact ⟨y, List.mem_cons_of_mem _ hy, h1⟩
    · rw [if_neg h] at hb
      rcases ih _ b hb with h1 | ⟨y, hy, h1⟩
      · left; exact h1
      · right; exact ⟨y, List.mem_cons_of_mem _ hy, h1⟩

theorem mergeSorted_apart (xs : List Interval) : ∀ last : Interval,
    (∀ y ∈ xs, last.Start ≤ y.Start) → xs.Pairwise (fun a b => a.Start ≤ b.Start) →
    (mergeSorted last xs).Pairwise Apart := by
  induction xs with
  | nil => intro last _ _; simp [mergeSorted]
  | cons x xs ih =>
    intro last hl hp
    have hx := List.pairwise_cons.mp hp
    rw [mergeSorted_cons]
    by_cases h : x.Start > last.Stop
    · rw [if_pos h]
      refine List.pairwise_cons.mpr ⟨?_, ih x hx.1 hx.2⟩
      intro b hb
      have hlx := hl x (List.mem_cons_self _ _)
      rcases mergeSorted_start xs x b hb with h1 | ⟨y, hy, h1⟩
      · unfold Apart; omega
      · have := hx.1 y hy
        unfold Apart; omega
    · rw [if_neg h]
      exact ih _ (fun y hy => hl y (List.mem_cons_of_mem _ hy)) hx.2

theorem Covers_cons (i : Interval) (l : List Interval) (z : Int) :
    Covers (i :: l) z ↔ (i.Start ≤ z ∧ z < i.Stop) ∨ Covers l z := by
  simp [Covers]

theorem mergeSorted_covers (xs : List Interval) : ∀ (last : Interval) (z : Int),
    (∀ y ∈ xs, last.Start ≤ y.Start) → xs.Pairwise (fun a b => a.Start ≤ b.Start) →
    (Covers (mergeSorted last xs) z ↔ Covers (last :: xs) z) := by
  induction xs with
  | nil => intro last z _ _; simp [mergeSorted]
  | cons x xs ih =>
    intro last z hl hp
    have hx := List.pairwise_cons.mp hp
    have hlx := hl x (List.mem_cons_self _ _)
    rw [mergeSorted_cons]
    by_cases h : x.Start > last.Stop
    · rw [if_pos h, Covers_cons, Covers_cons, ih x z hx.1 hx.2, Covers_cons]
    · rw [if_neg h, ih ⟨last.Start, max last.Stop x.Stop⟩ z
          (fun y hy => hl y (List.mem_cons_of_mem _ hy)) hx.2,
        Covers_cons, Covers_cons, Covers_cons]
      simp only
      constructor
      · rintro (h1 | h1)
        · by_cases hz : z < last.Stop
          · left; omega
          · right; left; omega
        · right; right; exact h1
      · rintro (h1 | h1 | h1)
        · left; omega
        · left; omega
        · right; exact h1

theorem mergeSorted_valid (xs : List Interval) : ∀ last : Interval,
    last.Start < last.Stop → (∀ y ∈ xs, y.Start < y.Stop) →
    ∀ b ∈ mergeSorted last xs, b.Start < b.Stop := by
  induction xs with
  | nil => intro last hl _ b hb; simp [mergeSorted] at hb; rw [hb]; exact hl
  | cons x xs ih =>
    intro last hl hv b hb
    rw [mergeSorted_cons] at hb
    by_cases h : x.Start > last.Stop
    · rw [if_pos h] at hb
      rcases List.mem_cons.mp hb with hb | hb
      · rw [hb]; exact hl
      · exact ih x (hv x (List.mem_cons_self _ _)) (fun y hy => hv y (List.mem_cons_of_mem _ hy))
          b hb
    · rw [if_neg h] at hb
      exact ih _ (by simp only; omega) (fun y hy => hv y (List.mem_cons_of_mem _ hy)) b hb

theorem SortIntervals_starts (s : List Interval) :
    (SortIntervals s).Pairwise (fun a b => a.Start ≤ b.Start) := by
  have h : (SortIntervals s).Sorted NotAfter := SortIntervals_sorted s
  refine List.Pairwise.imp ?_ h
  intro a b hab
  rw [notAfter_iff] at hab
  omega

/-- The results of `Normalize` are ascending and pairwise apart, and they cover
exactly the integers that the given intervals cover; proper intervals stay
proper. -/
theorem Normalize_spec (s : List Interval) :
    (Normalize s).Pairwise Apart ∧ (∀ z : Int, Covers (Normalize s) z ↔ Covers s z) ∧
    ((∀ i ∈ s, i.Start < i.Stop) → ∀ i ∈ Normalize s, i.Start < i.Stop) := by
  have hperm : (SortIntervals s).Perm s := List.perm_insertionSort NotAfter s
  have hcov : ∀ z : Int, Covers (SortIntervals s) z ↔ Covers s z := by
    intro z
    unfold Covers
    constructor
    · rintro ⟨i, hi, h⟩; exact ⟨i, hperm.mem_iff.mp hi, h⟩
    · rintro ⟨i, hi, h⟩; exact ⟨i, hperm.mem_iff.mpr hi, h⟩
  have hst := SortIntervals_starts s
  unfold Normalize
  cases hs : SortIntervals s with
  | nil =>
    rw [hs] at hcov
    refine ⟨List.Pairwise.nil, hcov, fun _ i hi => absurd hi (List.not_mem_nil i)⟩
  | cons x xs =>
    rw [hs] at hcov hst hperm
    have hx := List.pairwise_cons.mp hst
    refine ⟨mergeSorted_apart xs x hx.1 hx.2, ?_, ?_⟩
    · intro z
      rw [mergeSorted_covers xs x z hx.1 hx.2]
      exact hcov z
    · intro hv
      exact mergeSorted_valid xs x (hv x (hperm.mem_iff.mp (List.mem_cons_self _ _)))
        (fun y hy => hv y (hperm.mem_iff.mp (List.mem_cons_of_mem _ hy)))

/-! ## The row loop of `SelectAllGtidExecuted` -/

theorem appendIntervals_error (ts : List (List Char)) : ∀ (acc : List Interval) (t : List Char),
    t ∈ ts → (parseInterval t).2 ≠ none → ∃ e, appendIntervals acc ts = Except.error e := by
  induction ts with
  | nil => intro acc t ht; exact absurd ht (List.not_mem_nil t)
  | cons u us ih =>
    intro acc t ht hbad
    cases hu : parseInterval u with
    | mk i err =>
      cases err with
      | some e => exact ⟨e, by simp [appendIntervals, hu]⟩
      | none =>
        have htu : t ∈ us := by
          rcases List.mem_cons.mp ht with h | h
          · subst h; rw [hu] at hbad; exact absurd rfl hbad
          · exact h
        obtain ⟨e, he⟩ := ih (acc ++ [i]) t htu hbad
        exact ⟨e, by simp [appendIntervals, hu, he]⟩

theorem scanRows_error (outcomes : List (Except GoError GtidRow)) : ∀ (m : GtidSet)
    (r : GtidRow) (t : List Char), Except.ok r ∈ outcomes → r.gno = 0 →
    t ∈ Split ':' r.gnoSet → (parseInterval t).2 ≠ none →
    ∃ e, scanRows m outcomes = Except.error e := by
  induction outcomes with
  | nil => intro m r t hr; exact absurd hr (List.not_mem_nil _)
  | cons o os ih =>
    intro m r t hr hg ht hbad
    cases o with
    | error e => exact ⟨e, by simp [scanRows]⟩
    | ok row =>
      by_cases hrow : row = r
      · subst hrow
        obtain ⟨e, he⟩ := appendIntervals_error _ ((m row.sid).getD ⟨0, []⟩).Intervals t ht hbad
        exact ⟨e, by simp [scanRows, hg, he]⟩
      · have hmem : Except.ok r ∈ os := by
          rcases List.mem_cons.mp hr with h | h
          · injection h with h; exact absurd h.symm hrow
          · exact h
        simp only [scanRows]
        split_ifs with h0
        · cases ha : appendIntervals ((m row.sid).getD ⟨0, []⟩).Intervals
              (Split ':' row.gnoSet) with
          | error e => exact ⟨e, rfl⟩
          | ok ivs => exact ih _ r t hmem hg ht hbad
        · exact ih _ r t hmem hg ht hbad

theorem appendIntervals_ok (ts : List (List Char)) : ∀ acc : List Interval,
    (∀ t ∈ ts, (parseInterval t).2 = none) →
    appendIntervals acc ts = Except.ok (acc ++ ts.map (fun t => (parseInterval t).1)) := by
  induction ts with
  | nil => intro acc _; simp [appendIntervals]
  | cons u us ih =>
    intro acc h
    have hu := h u (List.mem_cons_self _ _)
    cases hp : parseInterval u with
    | mk i err =>
      rw [hp] at hu
      simp only at hu
      subst hu
      simp [appendIntervals, hp, ih (acc ++ [i]) (fun t ht => h t (List.mem_cons_of_mem _ ht))]

theorem scanRows_ok (rows : List GtidRow) : ∀ m : GtidSet, (∀ r ∈ rows, Parses r) →
    scanRows m (rows.map Except.ok) = Except.ok (fun sid => foldItem (m sid) (rowsOf sid rows)) := by
  induction rows with
  | nil => intro m _; simp [scanRows, rowsOf, foldItem]
  | cons r rs ih =>
    intro m h
    have hr := h r (List.mem_cons_self _ _)
    have hrs : ∀ r ∈ rs, Parses r := fun x hx => h x (List.mem_cons_of_mem _ hx)
    have key : ∀ item : GtidExecutedItem,
        item = ⟨add64 ((m r.sid).getD ⟨0, []⟩).NRow 1,
          ((m r.sid).getD ⟨0, []⟩).Intervals ++ rowIntervals r⟩ →
        (fun sid => foldItem ((m.set r.sid item) sid) (rowsOf sid rs)) =
          (fun sid => foldItem (m sid) (rowsOf sid (r :: rs))) := by
      intro item hitem
      funext sid
      by_cases hs : r.sid = sid
      · subst hs
        simp [rowsOf, GtidSet.set, foldItem, hitem]
      · have hs2 : ¬ sid = r.sid := fun e => hs e.symm
        simp [rowsOf, GtidSet.set, hs, hs2]
    simp only [List.map_cons, scanRows]
    by_cases h0 : r.gno = 0
    · rw [if_pos h0, appendIntervals_ok _ _ (hr h0)]
      simp only
      rw [ih _ hrs, key]
      simp [rowIntervals, h0]
    · rw [if_neg h0, ih _ hrs, key]
      simp [rowIntervals, h0]

theorem foldItem_cons (rs : List GtidRow) : ∀ (x : Option GtidExecutedItem) (r : GtidRow),
    foldItem x (r :: rs) =
      some ⟨wrap64 ((x.getD ⟨0, []⟩).NRow + ((rs.length : Int) + 1)),
        (x.getD ⟨0, []⟩).Intervals ++ (r :: rs).flatMap rowIntervals⟩ := by
  induction rs with
  | nil => intro x r; simp [foldItem, add64]
  | cons r2 rs ih =>
    intro x r
    rw [foldItem, ih]
    simp only [Option.getD_some, add64, wrap64_wrap64_add, List.length_cons, List.flatMap_cons,
      List.append_assoc, Nat.cast_add, Nat.cast_one]
    congr 3
    omega

/-! ## `parseInterval` -/

/-- C1, the code at the failing inputs. `parseInterval` accepts "x-5" and "-5",
whose first side is not a number, and returns the interval `[0, 6)` with a nil
error; "5-x", whose second side is not a number, is refused. -/
theorem parseInterval_first_side_unchecked :
    parseInterval "x-5".toList = (⟨0, 6⟩, none) ∧
    parseInterval "-5".toList = (⟨0, 6⟩, none) ∧
    (parseInterval "5-x".toList).2 = some (GoError.num NumError.invalidDigits) := by
  decide

/-- C7. For every natural number `n < 2^63 - 1`, `parseInterval` of the decimal
text of `n` succeeds with `Start = n` and `Stop = n + 1`; for all `n1`, `n2`
below `2^63 - 1`, `parseInterval` of the text `n1-n2` succeeds with
`Start = n1` and `Stop = n2 + 1` when `n1 ≤ n2` and returns an error when
`n2 < n1`. -/
theorem parseInterval_decimal :
    (∀ n : Nat, (n : Int) < 2 ^ 63 - 1 →
      parseInterval (decimal n) = (⟨(n : Int), (n : Int) + 1⟩, none)) ∧
    (∀ n1 n2 : Nat, (n1 : Int) < 2 ^ 63 - 1 → (n2 : Int) < 2 ^ 63 - 1 →
      (n1 ≤ n2 → parseInterval (decimal n1 ++ '-' :: decimal n2) =
        (⟨(n1 : Int), (n2 : Int) + 1⟩, none)) ∧
      (n2 < n1 → (parseInterval (decimal n1 ++ '-' :: decimal n2)).2 ≠ none)) := by
  have hdash : ¬ IsDigit '-' := by unfold IsDigit; decide
  have hadd : ∀ n : Nat, (n : Int) < 2 ^ 63 - 1 → add64 (n : Int) 1 = (n : Int) + 1 := by
    intro n hn
    exact wrap64_of_range _ (by omega) (by omega)
  refine ⟨?_, ?_⟩
  · intro n hn
    have hp := ParseInt_decimal n (by omega)
    simp [parseInterval, Split_of_not_mem '-' _ (decimal_not_mem n '-' hdash), hp, hadd n hn]
  · intro n1 n2 h1 h2
    have hp1 := ParseInt_decimal n1 (by omega)
    have hp2 := ParseInt_decimal n2 (by omega)
    have hs : Split '-' (decimal n1 ++ '-' :: decimal n2) = [decimal n1, decimal n2] := by
      rw [Split_append '-' _ _ (decimal_not_mem n1 '-' hdash),
        Split_of_not_mem '-' _ (decimal_not_mem n2 '-' hdash)]
    constructor
    · intro hle
      have : ¬ ((n2 : Int) + 1 ≤ (n1 : Int)) := by omega
      simp [parseInterval, hs, hp1, hp2, hadd n2 h2, this]
    · intro hlt
      have : (n2 : Int) + 1 ≤ (n1 : Int) := by omega
      simp [parseInterval, hs, hp1, hp2, hadd n2 h2, this]

/-- C7 at the texts "5", "5-7" and "7-5". -/
theorem parseInterval_decimal_witness :
    parseInterval (decimal 5) = (⟨5, 6⟩, none) ∧
    parseInterval (decimal 5 ++ '-' :: decimal 7) = (⟨5, 8⟩, none) ∧
    (parseInterval (decimal 7 ++ '-' :: decimal 5)).2 ≠ none :=
  ⟨parseInterval_decimal.1 5 (by decide),
    (parseInterval_decimal.2 5 7 (by decide) (by decide)).1 (by decide),
    (parseInterval_decimal.2 7 5 (by decide) (by decide)).2 (by decide)⟩

/-! ## `cleanGtidExecuted` -/

/-- C2, as the code has it. When `WaitForAllCommitted` returns true and every
database call succeeds, `cleanGtidExecuted` returns nil and issues exactly four
calls, in this order: begin, the prepared delete of the rows of the source, the
insert of the row `(subject, sid, 0, intervalStr)`, commit. The delete comes
before the insert. -/
theorem cleanGtidExecuted_delete_then_insert (subject : String) (sid : UUID)
    (intervalStr : List Char) (w : World) :
    (cleanGtidExecuted true noFailure subject sid intervalStr w).1 = none ∧
    (cleanGtidExecuted true noFailure subject sid intervalStr w).2.calls =
      w.calls ++ [Stmt.beginTx, Stmt.deleteExecutedGtid sid,
        Stmt.insertV4 Handle.applier ⟨subject, sid, 0, some intervalStr⟩, Stmt.commit] := by
  simp [cleanGtidExecuted, World.exec, World.effect, noFailure]

/-- C2, refuted as stated. For job "job", source 1 and text "1-5", with every
call succeeding, the calls are begin, delete, insert, commit: the insert does
not precede the delete. -/
theorem cleanGtidExecuted_insert_not_first :
    (cleanGtidExecuted true noFailure "job" 1 "1-5".toList World.empty).2.calls =
      [Stmt.beginTx, Stmt.deleteExecutedGtid 1,
        Stmt.insertV4 Handle.applier ⟨"job", 1, 0, some "1-5".toList⟩, Stmt.commit] ∧
    ¬ (List.indexOf (Stmt.insertV4 Handle.applier ⟨"job", 1, 0, some "1-5".toList⟩)
          (cleanGtidExecuted true noFailure "job" 1 "1-5".toList World.empty).2.calls <
        List.indexOf (Stmt.deleteExecutedGtid 1)
          (cleanGtidExecuted true noFailure "job" 1 "1-5".toList World.empty).2.calls) := by
  decide

/-- C3, the code at the failing input. When `WaitForAllCommitted` returns true,
begin, delete and insert succeed and `tx.Commit` (the fourth call) fails with
`e`, `cleanGtidExecuted` has issued begin, delete, insert, commit and returns
nil: the commit error is lost. A failure `e` of begin (first call), of the
delete (second) or of the insert (third) is returned, the last two after a
rollback and without a commit. -/
theorem cleanGtidExecuted_commit_error_lost (e : GoError) (subject : String) (sid : UUID)
    (intervalStr : List Char) :
    cleanGtidExecuted true (fun k => if k = 3 then some e else none) subject sid intervalStr
        World.empty =
      (none, ⟨[Stmt.beginTx, Stmt.deleteExecutedGtid sid,
        Stmt.insertV4 Handle.applier ⟨subject, sid, 0, some intervalStr⟩, Stmt.commit], [], []⟩) ∧
    cleanGtidExecuted true (fun k => if k = 0 then some e else none) subject sid intervalStr
        World.empty = (some e, ⟨[Stmt.beginTx], [], []⟩) ∧
    cleanGtidExecuted true (fun k => if k = 1 then some e else none) subject sid intervalStr
        World.empty =
      (some e, ⟨[Stmt.beginTx, Stmt.deleteExecutedGtid sid, Stmt.rollback], [], []⟩) ∧
    cleanGtidExecuted true (fun k => if k = 2 then some e else none) subject sid intervalStr
        World.empty =
      (some e, ⟨[Stmt.beginTx, Stmt.deleteExecutedGtid sid,
        Stmt.insertV4 Handle.applier ⟨subject, sid, 0, some intervalStr⟩, Stmt.rollback],
        [], []⟩) := by
  simp [cleanGtidExecuted, World.exec, World.effect, World.empty]

/-- C9. When `WaitForAllCommitted` returns false, `cleanGtidExecuted` issues no
database call at all (the world is returned as it was) and returns nil, for
every source id, every interval text and every behaviour of the driver. -/
theorem cleanGtidExecuted_shutdown (fails : Nat → Option GoError) (subject : String)
    (sid : UUID) (intervalStr : List Char) (w : World) :
    cleanGtidExecuted false fails subject sid intervalStr w = (none, w) := by
  simp [cleanGtidExecuted]

/-! ## `migrateGtidExecutedV3toV4` -/

/-- C4, the code at the failing input. For the legacy rows "1-3" and "abc" of one
job and source, with every database call succeeding and an empty V4 table, the
migration returns the parse error of "abc" and rolls the transaction back, yet
the row `(job, sid, 0, "1-3")` is in the V4 table: it was inserted on the pool,
outside the transaction. -/
theorem migrateGtidExecutedV3toV4_insert_outside_tx (g : G) :
    migrateGtidExecutedV3toV4 g noFailure
        [Except.ok ⟨"job", 1, "1-3".toList⟩, Except.ok ⟨"job", 1, "abc".toList⟩] World.empty =
      (some (GoError.num NumError.invalidDigits),
        ⟨[Stmt.createTableV4, Stmt.selectV3, Stmt.beginTx, Stmt.prepareInsert,
            Stmt.insertV4 Handle.pool ⟨"job", 1, 0, some "1-3".toList⟩, Stmt.rollback],
          [⟨"job", 1, 0, some "1-3".toList⟩], []⟩) := by
  rfl

/-- C5, refuted as stated. For the legacy rows "7" and "1-3,5,10-12" of one job
and source, with every database call succeeding, the migration returns nil and
the V4 table holds the text row with point value 0 and the point row 7 with a
NULL text; `SelectAllGtidExecuted` on these rows returns a nil set and a non-nil
error. -/
theorem migrate_then_load_fails :
    (migrateGtidExecutedV3toV4 sampleNames noFailure
        [Except.ok ⟨"job", 1, decimal 7⟩, Except.ok ⟨"job", 1, fixtureText⟩] World.empty).1 = none ∧
    (migrateGtidExecutedV3toV4 sampleNames noFailure
        [Except.ok ⟨"job", 1, decimal 7⟩, Except.ok ⟨"job", 1, fixtureText⟩] World.empty).2.v4 =
      [⟨"job", 1, 0, some fixtureText⟩, ⟨"job", 1, 7, none⟩] ∧
    (SelectAllGtidExecuted (Except.ok ((migrateGtidExecutedV3toV4 sampleNames noFailure
        [Except.ok ⟨"job", 1, decimal 7⟩, Except.ok ⟨"job", 1, fixtureText⟩]
          World.empty).2.v4.map scanV4Row))).1 = none ∧
    (SelectAllGtidExecuted (Except.ok ((migrateGtidExecutedV3toV4 sampleNames noFailure
        [Except.ok ⟨"job", 1, decimal 7⟩, Except.ok ⟨"job", 1, fixtureText⟩]
          World.empty).2.v4.map scanV4Row))).2 ≠ none :=
  ⟨rfl, rfl, rfl, by decide⟩

/-- C5, as the code has it. For one job and source, a legacy table with the
plain row "n" (`1 ≤ n < 2^63`) and the row "1-3,5,10-12": with every database
call succeeding the V3 to V4 migration returns nil and leaves in the V4 table
the raw text with point value 0 and the point row `n` with a NULL text, two
rows with different keys; and `SelectAllGtidExecuted` on any rows among which the text row is scanned returns
a nil set and a non-nil error, the text being one `:`-piece with two `-`. -/
theorem migrate_then_load (g : G) (job : String) (sid : UUID) (n : Nat) (h1 : 1 ≤ n)
    (h2 : n < 2 ^ 63) :
    (migrateGtidExecutedV3toV4 g noFailure
        [Except.ok ⟨job, sid, decimal n⟩, Except.ok ⟨job, sid, fixtureText⟩] World.empty).1 = none ∧
    (migrateGtidExecutedV3toV4 g noFailure
        [Except.ok ⟨job, sid, decimal n⟩, Except.ok ⟨job, sid, fixtureText⟩] World.empty).2.v4 =
      [⟨job, sid, 0, some fixtureText⟩, ⟨job, sid, (n : Int), none⟩] ∧
    (n : Int) ≠ 0 ∧
    ∀ outcomes : List (Except GoError GtidRow),
      scanV4Row ⟨job, sid, 0, some fixtureText⟩ ∈ outcomes →
      (SelectAllGtidExecuted (Except.ok outcomes)).1 = none ∧
        (SelectAllGtidExecuted (Except.ok outcomes)).2 ≠ none := by
  have hc : ContainsAny fixtureText [',', '-', ':'] = true := by decide
  have hp := ParseInt_decimal n h2
  refine ⟨?_, ?_, by omega, ?_⟩
  · simp [migrateGtidExecutedV3toV4, migrateRows, World.exec, World.effect, World.empty,
      noFailure, ContainsAny_decimal, hc, hp]
  · simp [migrateGtidExecutedV3toV4, migrateRows, World.exec, World.effect, World.empty,
      noFailure, ContainsAny_decimal, hc, hp]
  · intro outcomes hmem
    have hbad : (parseInterval fixtureText).2 ≠ none := by decide
    have hsplit : fixtureText ∈ Split ':' fixtureText := by decide
    obtain ⟨e, he⟩ := scanRows_error outcomes (fun _ => none) ⟨sid, 0, fixtureText⟩ fixtureText
      hmem rfl hsplit hbad
    simp [SelectAllGtidExecuted, he]

/-- C5 as the code has it, at `n = 7` for job "job" and source 1. -/
theorem migrate_then_load_witness :
    (1 ≤ 7 ∧ 7 < 2 ^ 63) ∧
    (migrateGtidExecutedV3toV4 sampleNames noFailure
        [Except.ok ⟨"job", 1, decimal 7⟩, Except.ok ⟨"job", 1, fixtureText⟩] World.empty).1 = none ∧
    (migrateGtidExecutedV3toV4 sampleNames noFailure
        [Except.ok ⟨"job", 1, decimal 7⟩, Except.ok ⟨"job", 1, fixtureText⟩] World.empty).2.v4 =
      [⟨"job", 1, 0, some fixtureText⟩, ⟨"job", 1, ((7 : Nat) : Int), none⟩] ∧
    ((7 : Nat) : Int) ≠ 0 ∧
    ∀ outcomes : List (Except GoError GtidRow),
      scanV4Row ⟨"job", 1, 0, some fixtureText⟩ ∈ outcomes →
      (SelectAllGtidExecuted (Except.ok outcomes)).1 = none ∧
        (SelectAllGtidExecuted (Except.ok outcomes)).2 ≠ none :=
  ⟨by decide, migrate_then_load sampleNames "job" 1 7 (by decide) (by decide)⟩

/-! ## `SelectAllGtidExecuted` -/

/-- C6. For every list of rows whose scans succeed and on which every piece
parses, `SelectAllGtidExecuted` returns a set and a nil error; the set maps
exactly the sources that occur in the rows; for each such source, `NRow` is the
number of its rows (as an `int64`; it is that number whenever it is below
`2^63`) and `Intervals` is `Normalize` of the concatenation, in row order, of
the intervals of its rows: `[gno, gno+1)` for a row with `gno ≠ 0`, the
`parseInterval` of each `:`-separated piece for a row with `gno = 0`. The
normalized intervals are ascending and pairwise disjoint (each stops before the
next starts) and cover the same integers as that concatenation. -/
theorem SelectAllGtidExecuted_spec (rows : List GtidRow) (hparse : ∀ r ∈ rows, Parses r) :
    ∃ set : GtidSet, SelectAllGtidExecuted (scanned rows) = (some set, none) ∧
      (∀ sid, set sid ≠ none ↔ ∃ r ∈ rows, r.sid = sid) ∧
      (∀ sid item, set sid = some item →
        item.NRow = wrap64 ((rowsOf sid rows).length : Int) ∧
        (((rowsOf sid rows).length : Int) < 2 ^ 63 →
          item.NRow = ((rowsOf sid rows).length : Int)) ∧
        item.Intervals = Normalize ((rowsOf sid rows).flatMap rowIntervals) ∧
        item.Intervals.Pairwise Apart ∧
        (∀ z : Int, Covers item.Intervals z ↔
          Covers ((rowsOf sid rows).flatMap rowIntervals) z)) := by
  refine ⟨fun sid => (foldItem none (rowsOf sid rows)).map
      (fun item => ⟨item.NRow, Normalize item.Intervals⟩), ?_, ?_, ?_⟩
  · simp [SelectAllGtidExecuted, scanned, scanRows_ok rows _ hparse]
  · intro sid
    beta_reduce
    cases hrs : rowsOf sid rows with
    | nil =>
      simp only [foldItem, Option.map_none', ne_eq, not_true_eq_false, false_iff]
      rintro ⟨r, hr, hsid⟩
      have : r ∈ rowsOf sid rows := by simp [rowsOf, hr, hsid]
      rw [hrs] at this
      exact absurd this (List.not_mem_nil r)
    | cons r rs =>
      rw [foldItem_cons]
      simp only [Option.map_some', ne_eq, reduceCtorEq, not_false_eq_true, true_iff]
      have : r ∈ rowsOf sid rows := by rw [hrs]; exact List.mem_cons_self _ _
      simp only [rowsOf, List.mem_filter, decide_eq_true_eq] at this
      exact ⟨r, this.1, this.2⟩
  · intro sid item hitem
    beta_reduce at hitem
    cases hrs : rowsOf sid rows with
    | nil => rw [hrs] at hitem; simp [foldItem] at hitem
    | cons r rs =>
      rw [hrs, foldItem_cons] at hitem
      simp only [Option.map_some', Option.some.injEq, Option.getD_none, zero_add,
        List.nil_append] at hitem
      subst hitem
      have hN := Normalize_spec ((r :: rs).flatMap rowIntervals)
      refine ⟨by simp, ?_, rfl, hN.1, hN.2.1⟩
      intro hlt
      simp only [List.length_cons, Nat.cast_add, Nat.cast_one] at hlt ⊢
      exact wrap64_of_range _ (by omega) hlt

/-- C6 at the rows `(7, 5, _)` and `(7, 0, "1-3:10")`: every piece parses and the
conclusion of `SelectAllGtidExecuted_spec` holds for them. -/
theorem SelectAllGtidExecuted_spec_witness :
    (∀ r ∈ sampleRows, Parses r) ∧
    ∃ set : GtidSet, SelectAllGtidExecuted (scanned sampleRows) = (some set, none) ∧
      (∀ sid, set sid ≠ none ↔ ∃ r ∈ sampleRows, r.sid = sid) ∧
      (∀ sid item, set sid = some item →
        item.NRow = wrap64 ((rowsOf sid sampleRows).length : Int) ∧
        (((rowsOf sid sampleRows).length : Int) < 2 ^ 63 →
          item.NRow = ((rowsOf sid sampleRows).length : Int)) ∧
        item.Intervals = Normalize ((rowsOf sid sampleRows).flatMap rowIntervals) ∧
        item.Intervals.Pairwise Apart ∧
        (∀ z : Int, Covers item.Intervals z ↔
          Covers ((rowsOf sid sampleRows).flatMap rowIntervals) z)) :=
  ⟨by unfold Parses; decide, SelectAllGtidExecuted_spec sampleRows (by unfold Parses; decide)⟩

/-- C8. For every list of rows delivered by the query, whatever the outcome of
the other rows and wherever the bad row stands: if some scanned row with
`gno = 0` has a `:`-separated piece of its text on which `parseInterval` returns
an error, `SelectAllGtidExecuted` returns a nil set and a non-nil error. -/
theorem SelectAllGtidExecuted_all_or_nothing (outcomes : List (Except GoError GtidRow))
    (r : GtidRow) (t : List Char) (hr : Except.ok r ∈ outcomes) (hg : r.gno = 0)
    (ht : t ∈ Split ':' r.gnoSet) (hbad : (parseInterval t).2 ≠ none) :
    (SelectAllGtidExecuted (Except.ok outcomes)).1 = none ∧
      (SelectAllGtidExecuted (Except.ok outcomes)).2 ≠ none := by
  obtain ⟨e, he⟩ := scanRows_error outcomes (fun _ => none) r t hr hg ht hbad
  simp [SelectAllGtidExecuted, he]

/-- C8 at the rows `(1, 5, "")` and `(1, 0, "1-3:x")`, the piece "x" being the
bad one. -/
theorem SelectAllGtidExecuted_all_or_nothing_witness :
    (parseInterval "x".toList).2 ≠ none ∧
    (SelectAllGtidExecuted (Except.ok
      [Except.ok ⟨1, 5, []⟩, Except.ok ⟨1, 0, "1-3:x".toList⟩])).1 = none ∧
    (SelectAllGtidExecuted (Except.ok
      [Except.ok ⟨1, 5, []⟩, Except.ok ⟨1, 0, "1-3:x".toList⟩])).2 ≠ none :=
  ⟨by decide,
    SelectAllGtidExecuted_all_or_nothing
      [Except.ok ⟨1, 5, []⟩, Except.ok ⟨1, 0, "1-3:x".toList⟩] ⟨1, 0, "1-3:x".toList⟩ "x".toList
      (by simp) rfl (by decide) (by decide)⟩

/-! ## `createTableGtidExecutedV4` -/

/-- C10. With both table listings succeeding: if the listing of transient tables
is non-empty, or the listing of checkpoint tables has more than one table, or it
has exactly one table that is none of V2, V3, V4, `createTableGtidExecutedV4`
returns an error; if it has exactly one table and it is the V4 table, the
function returns nil, unless the first case applies (it returns nil exactly
when the transient listing is empty); in all four cases only reading calls are
issued and no row changes. -/
theorem createTableGtidExecutedV4_guards (g : G) (fails : Nat → Option GoError)
    (cat : Catalog) (w : World)
    (h0 : fails w.calls.length = none) (h1 : fails (w.calls.length + 1) = none)
    (h42 : g.GtidExecutedTableV4 ≠ g.GtidExecutedTableV2)
    (h43 : g.GtidExecutedTableV4 ≠ g.GtidExecutedTableV3) :
    (cat.tempTables ≠ [] →
      (createTableGtidExecutedV4 g fails cat w).1 ≠ none ∧
        NoChange w (createTableGtidExecutedV4 g fails cat w).2) ∧
    (cat.tables.length > 1 →
      (createTableGtidExecutedV4 g fails cat w).1 ≠ none ∧
        NoChange w (createTableGtidExecutedV4 g fails cat w).2) ∧
    (∀ name, cat.tables = [name] → name ≠ g.GtidExecutedTableV2 →
      name ≠ g.GtidExecutedTableV3 → name ≠ g.GtidExecutedTableV4 →
      (createTableGtidExecutedV4 g fails cat w).1 ≠ none ∧
        NoChange w (createTableGtidExecutedV4 g fails cat w).2) ∧
    (cat.tables = [g.GtidExecutedTableV4] →
      ((createTableGtidExecutedV4 g fails cat w).1 = none ↔ cat.tempTables = []) ∧
        NoChange w (createTableGtidExecutedV4 g fails cat w).2) := by
  have one : ∀ s : Stmt, s.changes = false →
      NoChange w { w with calls := w.calls ++ [s] } := by
    intro s hs
    exact ⟨⟨[s], rfl, by simpa using hs⟩, rfl, rfl⟩
  have two : ∀ s t : Stmt, s.changes = false → t.changes = false →
      NoChange w { w with calls := w.calls ++ [s] ++ [t] } := by
    intro s t hs ht
    refine ⟨⟨[s, t], by simp, ?_⟩, rfl, rfl⟩
    intro x hx
    simp at hx
    rcases hx with rfl | rfl <;> assumption
  have e1 : w.exec fails (Stmt.showTables g.GtidExecutedTempTablePrefix) =
      (none, { w with calls := w.calls ++ [Stmt.showTables g.GtidExecutedTempTablePrefix] }) := by
    simp [World.exec, World.effect, h0]
  have e2 : World.exec fails
        { w with calls := w.calls ++ [Stmt.showTables g.GtidExecutedTempTablePrefix] }
        (Stmt.showTables g.GtidExecutedTablePrefix) =
      (none, { w with calls := w.calls ++ [Stmt.showTables g.GtidExecutedTempTablePrefix] ++
        [Stmt.showTables g.GtidExecutedTablePrefix] }) := by
    simp [World.exec, World.effect, h1]
  by_cases ht : cat.tempTables = []
  · have hlen : ¬ (cat.tempTables.length > 0) := by simp [ht]
    refine ⟨fun h => absurd ht h, ?_, ?_, ?_⟩
    · intro hl
      have hl1 : 1 < cat.tables.length := hl
      simp only [createTableGtidExecutedV4, e1, e2, hlen, hl1, and_false, if_false, if_true]
      exact ⟨by simp, two _ _ rfl rfl⟩
    · intro name hn n2 n3 n4
      simp only [createTableGtidExecutedV4, e1, e2, hlen, hn, n2, n3, n4, and_false, if_false,
        List.length_singleton, gt_iff_lt, lt_self_iff_false]
      exact ⟨by simp, two _ _ rfl rfl⟩
    · intro hn
      simp only [createTableGtidExecutedV4, e1, e2, hlen, hn, h42, h43, and_false, if_false,
        if_true, List.length_singleton, gt_iff_lt, lt_self_iff_false]
      exact ⟨by simp [ht], two _ _ rfl rfl⟩
  · have hlen : cat.tempTables.length > 0 := List.length_pos.mpr ht
    have key : createTableGtidExecutedV4 g fails cat w =
        (some (GoError.errorf "GtidExecutedTempTable exists. require manual intervention"),
          { w with calls := w.calls ++ [Stmt.showTables g.GtidExecutedTempTablePrefix] }) := by
      simp only [createTableGtidExecutedV4, e1, hlen, and_self, if_true]
    rw [key]
    refine ⟨fun _ => ⟨by simp, one _ rfl⟩, fun _ => ⟨by simp, one _ rfl⟩,
      fun _ _ _ _ _ => ⟨by simp, one _ rfl⟩, fun _ => ⟨by simp [ht], one _ rfl⟩⟩

/-- C10 with the sample names, every call succeeding, no transient table and the
V4 table alone: the function returns nil and changes nothing. -/
theorem createTableGtidExecutedV4_guards_witness :
    (noFailure 0 = none ∧ noFailure 1 = none ∧
      sampleNames.GtidExecutedTableV4 ≠ sampleNames.GtidExecutedTableV2 ∧
      sampleNames.GtidExecutedTableV4 ≠ sampleNames.GtidExecutedTableV3) ∧
    ((createTableGtidExecutedV4 sampleNames noFailure ⟨[], ["gtid_executed_v4"], []⟩
        World.empty).1 = none ↔ ([] : List String) = []) ∧
    NoChange World.empty (createTableGtidExecutedV4 sampleNames noFailure
      ⟨[], ["gtid_executed_v4"], []⟩ World.empty).2 :=
  ⟨⟨rfl, rfl, by decide, by decide⟩,
    (createTableGtidExecutedV4_guards sampleNames noFailure ⟨[], ["gtid_executed_v4"], []⟩
      World.empty rfl rfl (by decide) (by decide)).2.2.2 rfl⟩

end Dtle
